import Mathlib

/-!
Verification development for the CoDiPack tape engine core.

The definitions below are a shallow embedding of the C++ sources:
  - src/include/codi/tapes/jacobianBaseTape.hpp (adjoint vector management),
  - src/include/codi/tools/lowlevelFunctions/linearAlgebra/matrixMatrixMultiplication.hpp
    (the matrix-matrix-multiplication low level function).

Gradient values are modelled as integers (the C++ code is generic in the
gradient type; only ring operations are used), identifiers as natural numbers
(the reserved inactive identifier is 0).
-/

namespace CodiPack

/-! ## Adjoint vector and tape state (jacobianBaseTape.hpp) -/

/-- Resize of the adjoint vector, modelling std::vector resize semantics:
the first min(n, length) entries are kept and new slots are zero-initialized. -/
def vecResize (l : List ℤ) (n : ℕ) : List ℤ :=
  l.take n ++ List.replicate (n - l.length) 0

/-- State of a JacobianBaseTape that is relevant for adjoint vector management:
the adjoint vector and the index manager's largest created index. -/
structure TapeState where
  adjoints : List ℤ
  largestCreatedIndex : ℕ

/-- Tape state established by the JacobianBaseTape constructor: adjoints(1),
so slot 0 exists; no identifier has been created yet. -/
def initialTape : TapeState :=
  { adjoints := [0], largestCreatedIndex := 0 }

/-- Embeds JacobianBaseTape::resizeAdjointsVector: resize the adjoint vector
to getLargestCreatedIndex() + 1. -/
def resizeAdjointsVector (s : TapeState) : TapeState :=
  { s with adjoints := vecResize s.adjoints (s.largestCreatedIndex + 1) }

/-- Embeds JacobianBaseTape::checkAdjointSize: if the identifier is at or
beyond the current adjoint vector size, resize the adjoint vector. -/
def checkAdjointSize (s : TapeState) (identifier : ℕ) : TapeState :=
  if s.adjoints.length ≤ identifier then resizeAdjointsVector s else s

/-- Embeds the mutating accessor JacobianBaseTape::gradient(identifier):
the state after the checkAdjointSize call; the returned reference is
adjoints[identifier] in that state. -/
def gradientAccessState (s : TapeState) (identifier : ℕ) : TapeState :=
  checkAdjointSize s identifier

/-- Index into the adjoint vector read by the const accessor
JacobianBaseTape::gradient(identifier) const: slot 0 when the identifier is
strictly greater than the adjoint vector size, else the identifier itself. -/
def gradientConstIndex (s : TapeState) (identifier : ℕ) : ℕ :=
  if s.adjoints.length < identifier then 0 else identifier

/-- Value returned by the const accessor JacobianBaseTape::gradient const.
The function is pure: it neither resizes nor allocates. -/
def gradientConst (s : TapeState) (identifier : ℕ) : ℤ :=
  s.adjoints.getD (gradientConstIndex s identifier) 0

/-- Modelled from the spec: LocalAdjoints::zeroAll (localAdjoints.hpp is not
part of the sources given); section 4.2 of the spec states that zeroAll resets
every slot to the additive identity without changing the capacity. -/
def zeroAll (l : List ℤ) : List ℤ :=
  l.map (fun _ => 0)

/-- Embeds JacobianBaseTape::clearAdjoints: adjoints.zeroAll(). -/
def clearAdjoints (s : TapeState) : TapeState :=
  { s with adjoints := zeroAll s.adjoints }

/-- Embeds JacobianBaseTape::deleteAdjointVector: adjoints.resize(1). -/
def deleteAdjointVector (s : TapeState) : TapeState :=
  { s with adjoints := vecResize s.adjoints 1 }

/-- Embeds the adjoint-size check performed by
JacobianBaseTape::evaluateForward(start, end) before the sweep:
checkAdjointSize(indexManager.getLargestCreatedIndex()). -/
def evaluateForwardResize (s : TapeState) : TapeState :=
  checkAdjointSize s s.largestCreatedIndex

/-- Embeds the adjoint-size check performed by
JacobianBaseTape::evaluate(start, end) before the sweep:
checkAdjointSize(indexManager.getLargestCreatedIndex()). -/
def evaluateResize (s : TapeState) : TapeState :=
  checkAdjointSize s s.largestCreatedIndex

/-- Operations on the tape that touch the adjoint vector or the index
manager, as listed in the sources. -/
inductive TapeOp where
  | deleteAdjoints
  | clearAdj
  | evalForward
  | evalReverse
  | gradientMut (identifier : ℕ)
  | createIndex

/-- Applies one tape operation to the tape state. -/
def applyOp (s : TapeState) : TapeOp → TapeState
  | .deleteAdjoints => deleteAdjointVector s
  | .clearAdj => clearAdjoints s
  | .evalForward => evaluateForwardResize s
  | .evalReverse => evaluateResize s
  | .gradientMut identifier => gradientAccessState s identifier
  | .createIndex => { s with largestCreatedIndex := s.largestCreatedIndex + 1 }

/-- Runs a sequence of tape operations starting from the constructor state. -/
def runOps (ops : List TapeOp) : TapeState :=
  ops.foldl applyOp initialTape

/-! ## Basic lemmas about the adjoint vector model -/

/-- Length of a resized adjoint vector is exactly the requested size. -/
theorem vecResize_length (l : List ℤ) (n : ℕ) : (vecResize l n).length = n := by
  simp only [vecResize, List.length_append, List.length_take, List.length_replicate]
  omega

/-- Length of the adjoint vector after checkAdjointSize. -/
theorem checkAdjointSize_length (s : TapeState) (identifier : ℕ) :
    (checkAdjointSize s identifier).adjoints.length =
      if s.adjoints.length ≤ identifier then s.largestCreatedIndex + 1
      else s.adjoints.length := by
  unfold checkAdjointSize resizeAdjointsVector
  split <;> simp [vecResize_length]

/-- Every tape operation keeps the adjoint vector nonempty. -/
theorem applyOp_length_pos (s : TapeState) (op : TapeOp)
    (h : 0 < s.adjoints.length) : 0 < (applyOp s op).adjoints.length := by
  cases op with
  | deleteAdjoints => simp [applyOp, deleteAdjointVector, vecResize_length]
  | clearAdj => simpa [applyOp, clearAdjoints, zeroAll] using h
  | evalForward =>
      simp only [applyOp, evaluateForwardResize, checkAdjointSize_length]
      split <;> omega
  | evalReverse =>
      simp only [applyOp, evaluateResize, checkAdjointSize_length]
      split <;> omega
  | gradientMut identifier =>
      simp only [applyOp, gradientAccessState, checkAdjointSize_length]
      split <;> omega
  | createIndex => simpa [applyOp] using h

/-! ## Claim theorems about the adjoint vector -/

/-- C1: for every identifier strictly exceeding the current adjoint vector
size, the const gradient accessor returns the value stored in slot 0; the
slot it reads is index 0, which lies inside the bounds whenever the adjoint
vector is nonempty, and the accessor is a pure read that performs no
allocation or resize. -/
theorem gradientConst_out_of_range (s : TapeState) (identifier : ℕ)
    (h1 : s.adjoints.length < identifier) (h2 : 0 < s.adjoints.length) :
    gradientConst s identifier = s.adjoints.getD 0 0 ∧
    gradientConstIndex s identifier = 0 ∧
    gradientConstIndex s identifier < s.adjoints.length := by
  have hidx : gradientConstIndex s identifier = 0 := by
    unfold gradientConstIndex
    exact if_pos h1
  refine ⟨?_, hidx, ?_⟩
  · unfold gradientConst
    rw [hidx]
  · rw [hidx]
    exact h2

/-- Witness for C1 at a concrete tape state. -/
theorem gradientConst_out_of_range_witness :
    ((⟨[5, 7], 1⟩ : TapeState).adjoints.length < 9 ∧
     0 < (⟨[5, 7], 1⟩ : TapeState).adjoints.length) ∧
    (gradientConst ⟨[5, 7], 1⟩ 9 = (⟨[5, 7], 1⟩ : TapeState).adjoints.getD 0 0 ∧
     gradientConstIndex ⟨[5, 7], 1⟩ 9 = 0 ∧
     gradientConstIndex ⟨[5, 7], 1⟩ 9 < (⟨[5, 7], 1⟩ : TapeState).adjoints.length) :=
  ⟨⟨by decide, by decide⟩, gradientConst_out_of_range ⟨[5, 7], 1⟩ 9 (by decide) (by decide)⟩

/-- C2 counterexample: with adjoint vector size 1 and largest created index 2,
the mutating accessor called at identifier 5 resizes the adjoint vector only
to size 3 = largestCreatedIndex + 1, which is smaller than the claimed
identifier + 1 = 6, and the subsequent access adjoints[5] is out of bounds. -/
theorem gradientAccess_not_id_plus_one :
    (gradientAccessState ⟨[0], 2⟩ 5).adjoints.length = 3 ∧
    ¬ (5 + 1 ≤ (gradientAccessState ⟨[0], 2⟩ 5).adjoints.length) ∧
    ¬ (5 < (gradientAccessState ⟨[0], 2⟩ 5).adjoints.length) := by
  decide

/-- C2 (amended): for every identifier at or beyond the current adjoint
vector size that has actually been issued by the index manager
(identifier ≤ largestCreatedIndex), the mutating accessor first resizes the
adjoint vector to largestCreatedIndex + 1, which is at least identifier + 1,
so the mutable reference adjoints[identifier] it hands out is in bounds. -/
theorem gradientAccess_resizes (s : TapeState) (identifier : ℕ)
    (h1 : s.adjoints.length ≤ identifier)
    (h2 : identifier ≤ s.largestCreatedIndex) :
    (gradientAccessState s identifier).adjoints.length = s.largestCreatedIndex + 1 ∧
    identifier + 1 ≤ (gradientAccessState s identifier).adjoints.length ∧
    identifier < (gradientAccessState s identifier).adjoints.length := by
  have hlen : (gradientAccessState s identifier).adjoints.length =
      s.largestCreatedIndex + 1 := by
    unfold gradientAccessState
    rw [checkAdjointSize_length, if_pos h1]
  exact ⟨hlen, by omega, by omega⟩

/-- Witness for the amended C2 at a concrete tape state. -/
theorem gradientAccess_resizes_witness :
    ((⟨[0], 7⟩ : TapeState).adjoints.length ≤ 4 ∧
     4 ≤ (⟨[0], 7⟩ : TapeState).largestCreatedIndex) ∧
    ((gradientAccessState ⟨[0], 7⟩ 4).adjoints.length =
        (⟨[0], 7⟩ : TapeState).largestCreatedIndex + 1 ∧
     4 + 1 ≤ (gradientAccessState ⟨[0], 7⟩ 4).adjoints.length ∧
     4 < (gradientAccessState ⟨[0], 7⟩ 4).adjoints.length) :=
  ⟨⟨by decide, by decide⟩, gradientAccess_resizes ⟨[0], 7⟩ 4 (by decide) (by decide)⟩

/-- C7: whenever some issued identifier lies at or beyond the current adjoint
vector size, both evaluateForward and evaluate resize the adjoint vector to
largestCreatedIndex + 1 before the sweep runs, so afterwards every issued
identifier indexes inside the adjoint vector. -/
theorem evaluate_resizes (s : TapeState) (identifier : ℕ)
    (h1 : identifier ≤ s.largestCreatedIndex)
    (h2 : s.adjoints.length ≤ identifier) :
    (evaluateForwardResize s).adjoints.length = s.largestCreatedIndex + 1 ∧
    (evaluateResize s).adjoints.length = s.largestCreatedIndex + 1 ∧
    (∀ j, j ≤ s.largestCreatedIndex → j < (evaluateForwardResize s).adjoints.length) ∧
    (∀ j, j ≤ s.largestCreatedIndex → j < (evaluateResize s).adjoints.length) := by
  have hcond : s.adjoints.length ≤ s.largestCreatedIndex := le_trans h2 h1
  have hf : (evaluateForwardResize s).adjoints.length = s.largestCreatedIndex + 1 := by
    unfold evaluateForwardResize
    rw [checkAdjointSize_length, if_pos hcond]
  have hr : (evaluateResize s).adjoints.length = s.largestCreatedIndex + 1 := by
    unfold evaluateResize
    rw [checkAdjointSize_length, if_pos hcond]
  exact ⟨hf, hr, fun j hj => by omega, fun j hj => by omega⟩

/-- Witness for C7 at a concrete tape state. -/
theorem evaluate_resizes_witness :
    (3 ≤ (⟨[0, 0], 6⟩ : TapeState).largestCreatedIndex ∧
     (⟨[0, 0], 6⟩ : TapeState).adjoints.length ≤ 3) ∧
    ((evaluateForwardResize ⟨[0, 0], 6⟩).adjoints.length =
        (⟨[0, 0], 6⟩ : TapeState).largestCreatedIndex + 1 ∧
     (evaluateResize ⟨[0, 0], 6⟩).adjoints.length =
        (⟨[0, 0], 6⟩ : TapeState).largestCreatedIndex + 1 ∧
     (∀ j, j ≤ (⟨[0, 0], 6⟩ : TapeState).largestCreatedIndex →
        j < (evaluateForwardResize ⟨[0, 0], 6⟩).adjoints.length) ∧
     (∀ j, j ≤ (⟨[0, 0], 6⟩ : TapeState).largestCreatedIndex →
        j < (evaluateResize ⟨[0, 0], 6⟩).adjoints.length)) :=
  ⟨⟨by decide, by decide⟩, evaluate_resizes ⟨[0, 0], 6⟩ 3 (by decide) (by decide)⟩

/-- C8: clearAdjoints resets every slot of the adjoint vector to the additive
identity while keeping the vector's size and the rest of the tape state
unchanged; no slot is added or removed. -/
theorem clearAdjoints_zeroes (s : TapeState) :
    (clearAdjoints s).adjoints = List.replicate s.adjoints.length 0 ∧
    (clearAdjoints s).adjoints.length = s.adjoints.length ∧
    (clearAdjoints s).largestCreatedIndex = s.largestCreatedIndex := by
  refine ⟨?_, ?_, rfl⟩
  · simp [clearAdjoints, zeroAll, List.eq_replicate_iff]
  · simp [clearAdjoints, zeroAll]

/-- C9: starting from the constructor state, any sequence of
deleteAdjointVector, clearAdjoints, evaluation and gradient access calls
leaves the adjoint vector nonempty: the constructor makes it size 1, and
deleteAdjointVector resets it to exactly size 1 rather than 0, so the
slot read by gradient(0) is always in bounds. -/
theorem adjoints_never_empty (ops : List TapeOp) :
    0 < (runOps ops).adjoints.length ∧
    initialTape.adjoints.length = 1 ∧
    (∀ s : TapeState, (deleteAdjointVector s).adjoints.length = 1) ∧
    gradientConstIndex (runOps ops) 0 < (runOps ops).adjoints.length := by
  have key : ∀ (l : List TapeOp) (s : TapeState), 0 < s.adjoints.length →
      0 < (l.foldl applyOp s).adjoints.length := by
    intro l
    induction l with
    | nil => intro s hs; exact hs
    | cons op rest ih =>
        intro s hs
        exact ih (applyOp s op) (applyOp_length_pos s op hs)
  have hrun : 0 < (runOps ops).adjoints.length := key ops initialTape (by decide)
  refine ⟨hrun, by decide, fun s => by simp [deleteAdjointVector, vecResize_length], ?_⟩
  have hidx : gradientConstIndex (runOps ops) 0 = 0 := by
    unfold gradientConstIndex
    rw [if_neg (by omega)]
  rw [hidx]
  exact hrun

/-! ## Byte stream field access order (matrixMatrixMultiplication.hpp)

Each routine of ExtFunc_matrixMatrixMultiplication touches the serialized
fields of the record through one call per field, first over the fixed byte
segment and then over the dynamic byte segment. The lists below record the
order of these calls, read off the source of store, forward, reverse and
del. -/

/-- Fields of the matrix-matrix-multiplication record: the activity flags,
the three matrix arguments and the three dimensions. -/
inductive MMField where
  | activity
  | argA
  | argB
  | argR
  | dimN
  | dimK
  | dimM
  deriving DecidableEq

/-- Order of fixed-segment writes in store: storeActivity, then the store
calls for A, B, R, n, k, m, then storeActivity again. -/
def storeFixedOrder : List MMField :=
  [.activity, .argA, .argB, .argR, .dimN, .dimK, .dimM, .activity]

/-- Order of dynamic-segment writes in store: the store calls for
A, B, R, n, k, m (storeActivity writes only to the fixed segment). -/
def storeDynamicOrder : List MMField :=
  [.argA, .argB, .argR, .dimN, .dimK, .dimM]

/-- Order of fixed-segment reads in forward: restoreActivity, restoreFixed
for A, B, R, n, k, m, restoreActivity. -/
def forwardFixedOrder : List MMField :=
  [.activity, .argA, .argB, .argR, .dimN, .dimK, .dimM, .activity]

/-- Order of dynamic-segment reads in forward: restoreDynamic for
A, B, R, n, k, m. -/
def forwardDynamicOrder : List MMField :=
  [.argA, .argB, .argR, .dimN, .dimK, .dimM]

/-- Order of fixed-segment reads in reverse: restoreActivity, restoreFixed
for m, k, n, R, B, A, restoreActivity. -/
def reverseFixedOrder : List MMField :=
  [.activity, .dimM, .dimK, .dimN, .argR, .argB, .argA, .activity]

/-- Order of dynamic-segment reads in reverse: restoreDynamic for
m, k, n, R, B, A. -/
def reverseDynamicOrder : List MMField :=
  [.dimM, .dimK, .dimN, .argR, .argB, .argA]

/-- Order of fixed-segment reads in del: restoreActivity, restoreFixed for
m, k, n, R, B, A, restoreActivity. -/
def delFixedOrder : List MMField :=
  [.activity, .dimM, .dimK, .dimN, .argR, .argB, .argA, .activity]

/-- Order of dynamic-segment reads in del: restoreDynamic for
m, k, n, R, B, A. -/
def delDynamicOrder : List MMField :=
  [.dimM, .dimK, .dimN, .argR, .argB, .argA]

/-- C4 counterexample: the del routine does not read the fields in the store
order; it reads them in the reversed order, exactly as the reverse routine
does. In the dynamic segment, store writes argument A before dimension m
while del reads dimension m before argument A, an inversion of relative
order, and del touches every stored field, so no subsequence reading of the
claim can hold either. -/
theorem del_order_differs_from_store :
    delFixedOrder ≠ storeFixedOrder ∧
    delDynamicOrder ≠ storeDynamicOrder ∧
    delFixedOrder = reverseFixedOrder ∧
    delDynamicOrder = reverseDynamicOrder ∧
    storeDynamicOrder.indexOf MMField.argA < storeDynamicOrder.indexOf MMField.dimM ∧
    delDynamicOrder.indexOf MMField.dimM < delDynamicOrder.indexOf MMField.argA := by
  refine ⟨by decide, by decide, rfl, rfl, by decide, by decide⟩

/-- C4 (amended): the forward routine reads the fields in exactly the store
order in both segments, while the reverse and the del routines both read the
fields of each segment in exactly the reversed store order, matching each
other (consistent with the backward traversal of the byte buffers during
reverse interpretation and deletion). -/
theorem field_order_discipline :
    forwardFixedOrder = storeFixedOrder ∧
    forwardDynamicOrder = storeDynamicOrder ∧
    reverseFixedOrder = storeFixedOrder.reverse ∧
    reverseDynamicOrder = storeDynamicOrder.reverse ∧
    delFixedOrder = reverseFixedOrder ∧
    delDynamicOrder = reverseDynamicOrder := by
  refine ⟨rfl, rfl, by decide, by decide, rfl, rfl⟩

/-! ## External function registration (registerOnTape and the static ID) -/

/-- Modelled from the spec: the sentinel Config::LowLevelFunctionTokenInvalid
(config.h is not part of the sources given); the spec states that
re-registration with the same identity is checked via a sentinel invalid
token value. -/
def lowLevelFunctionTokenInvalid : ℕ := 65535

/-- State of the registration of one external function identity: the static
ID of the function and the tape's table of registered low level function
entries, represented by their tokens. -/
structure RegistryState where
  ID : ℕ
  registry : List ℕ

/-- Modelled from the spec: Tape::registerLowLevelFunction (the tape side of
the registry is not part of the sources given); it appends the new entry to
the process wide table and returns a fresh token for it. -/
def registerLowLevelFunction (s : RegistryState) : ℕ × RegistryState :=
  (s.registry.length, { s with registry := s.registry ++ [s.registry.length] })

/-- Embeds ExtFunc_matrixMatrixMultiplication::registerOnTape: only when the
static ID still holds the invalid token sentinel is the function registered
and the fresh token stored into ID; otherwise nothing happens. -/
def registerOnTape (s : RegistryState) : RegistryState :=
  if s.ID = lowLevelFunctionTokenInvalid then
    { (registerLowLevelFunction s).2 with ID := (registerLowLevelFunction s).1 }
  else s

/-- C6: registering the same external function identity a second time keeps
the identical token obtained by the first registration and performs no
second registration on the tape: the registry table is unchanged by the
second call, which is a no-op because the stored ID no longer equals the
invalid token sentinel. -/
theorem registerOnTape_idempotent (s : RegistryState)
    (h1 : s.ID = lowLevelFunctionTokenInvalid)
    (h2 : s.registry.length ≠ lowLevelFunctionTokenInvalid) :
    registerOnTape (registerOnTape s) = registerOnTape s ∧
    (registerOnTape (registerOnTape s)).ID = (registerOnTape s).ID ∧
    (registerOnTape (registerOnTape s)).registry = (registerOnTape s).registry ∧
    (registerOnTape s).registry.length = s.registry.length + 1 := by
  have hfirst : registerOnTape s =
      { ID := s.registry.length, registry := s.registry ++ [s.registry.length] } := by
    unfold registerOnTape
    rw [if_pos h1]
    rfl
  have hsecond : registerOnTape (registerOnTape s) = registerOnTape s := by
    rw [hfirst]
    unfold registerOnTape
    rw [if_neg h2]
  refine ⟨hsecond, by rw [hsecond], by rw [hsecond], ?_⟩
  rw [hfirst]
  simp

/-- Witness for C6 at a concrete registry state. -/
theorem registerOnTape_idempotent_witness :
    ((⟨65535, []⟩ : RegistryState).ID = lowLevelFunctionTokenInvalid ∧
     (⟨65535, []⟩ : RegistryState).registry.length ≠ lowLevelFunctionTokenInvalid) ∧
    (registerOnTape (registerOnTape ⟨65535, []⟩) = registerOnTape ⟨65535, []⟩ ∧
     (registerOnTape (registerOnTape ⟨65535, []⟩)).ID = (registerOnTape ⟨65535, []⟩).ID ∧
     (registerOnTape (registerOnTape ⟨65535, []⟩)).registry =
        (registerOnTape ⟨65535, []⟩).registry ∧
     (registerOnTape ⟨65535, []⟩).registry.length =
        (⟨65535, []⟩ : RegistryState).registry.length + 1) :=
  ⟨⟨by decide, by decide⟩, registerOnTape_idempotent ⟨65535, []⟩ (by decide) (by decide)⟩

/-! ## Matrix-matrix multiplication: primal computation and store -/

/-- Primal matrix product: entry (i, j) of A * B. -/
def matMul {n k m : ℕ} (A : Fin n → Fin k → ℤ) (B : Fin k → Fin m → ℤ) :
    Fin n → Fin m → ℤ :=
  fun i j => ∑ l, A i l * B l j

/-- Modelled from the spec: ActiveArgumentStoreTraits::isActive (the trait
header is not part of the sources given); the spec states an argument is
active if at least one of its elements currently carries a non reserved
identifier, the reserved identifier being 0. -/
def isActiveArg {p q : ℕ} (ids : Fin p → Fin q → ℕ) : Bool :=
  decide (∃ i j, ids i j ≠ 0)

/-- Embeds the identifier marking of
ExtFunc_matrixMatrixMultiplication::callPrimal: when at least one argument
is active, the output identifier matrix is first zeroed, then if A is active
each column receives the rowwise any() of A's input identifiers and if B is
active each row receives the colwise any() of B's input identifiers; when no
argument is active the output identifier buffer is left untouched. -/
def callPrimalRId {n k m : ℕ} (active active_A active_B : Bool)
    (AId : Fin n → Fin k → ℕ) (BId : Fin k → Fin m → ℕ)
    (RIdInit : Fin n → Fin m → ℕ) : Fin n → Fin m → ℕ :=
  if active then
    fun i j =>
      (if active_A ∧ (∃ l, AId i l ≠ 0) then 1 else 0) +
      (if active_B ∧ (∃ l, BId l j ≠ 0) then 1 else 0)
  else RIdInit

/-- Events that ExtFunc_matrixMatrixMultiplication::store can record on the
tape: the one-time registration, the push of the low level function record,
and the serialization of one field into the byte buffers. -/
inductive TapeEvent where
  | registerEvent
  | pushLowLevelFunction
  | byteWrite (f : MMField)
  deriving DecidableEq

/-- Result of ExtFunc_matrixMatrixMultiplication::store: the events recorded
on the tape, the primal result matrix and the output identifier matrix. -/
structure StoreResult (n m : ℕ) where
  events : List TapeEvent
  R : Fin n → Fin m → ℤ
  RId : Fin n → Fin m → ℕ

/-- Embeds ExtFunc_matrixMatrixMultiplication::store: detect the activity of
A and B; if either is active, register the function, push a low level
function record and serialize the fields in the store order; in both cases
compute the primal product and the output identifiers via callPrimal. -/
def mmStore {n k m : ℕ} (A : Fin n → Fin k → ℤ) (AId : Fin n → Fin k → ℕ)
    (B : Fin k → Fin m → ℤ) (BId : Fin k → Fin m → ℕ)
    (RIdInit : Fin n → Fin m → ℕ) : StoreResult n m :=
  { events :=
      if isActiveArg AId || isActiveArg BId then
        TapeEvent.registerEvent :: TapeEvent.pushLowLevelFunction ::
          storeFixedOrder.map TapeEvent.byteWrite
      else []
    R := matMul A B
    RId := callPrimalRId (isActiveArg AId || isActiveArg BId)
      (isActiveArg AId) (isActiveArg BId) AId BId RIdInit }

/-- C5: when neither input matrix contains an active element, the store
routine records nothing on the tape (no registration, no push of a low level
function, no byte writes), only computes the primal result R = A * B, and
leaves the output identifier buffer untouched. -/
theorem mmStore_passive_records_nothing {n k m : ℕ}
    (A : Fin n → Fin k → ℤ) (AId : Fin n → Fin k → ℕ)
    (B : Fin k → Fin m → ℤ) (BId : Fin k → Fin m → ℕ)
    (RIdInit : Fin n → Fin m → ℕ)
    (h1 : isActiveArg AId = false) (h2 : isActiveArg BId = false) :
    (mmStore A AId B BId RIdInit).events = [] ∧
    (mmStore A AId B BId RIdInit).R = matMul A B ∧
    (mmStore A AId B BId RIdInit).RId = RIdInit := by
  unfold mmStore callPrimalRId
  rw [h1, h2]
  exact ⟨rfl, rfl, rfl⟩

/-- Concrete input for the C5 witness: a 2 x 2 value matrix. -/
def wPassiveVals : Fin 2 → Fin 2 → ℤ :=
  fun i j => (i.val : ℤ) * 2 + j.val + 1

/-- Concrete input for the C5 witness: a fully passive identifier matrix. -/
def wPassiveIds : Fin 2 → Fin 2 → ℕ :=
  fun _ _ => 0

/-- Witness for C5 on concrete fully passive 2 x 2 inputs. -/
theorem mmStore_passive_records_nothing_witness :
    (isActiveArg wPassiveIds = false ∧ isActiveArg wPassiveIds = false) ∧
    ((mmStore wPassiveVals wPassiveIds wPassiveVals wPassiveIds wPassiveIds).events = [] ∧
     (mmStore wPassiveVals wPassiveIds wPassiveVals wPassiveIds wPassiveIds).R =
        matMul wPassiveVals wPassiveVals ∧
     (mmStore wPassiveVals wPassiveIds wPassiveVals wPassiveIds wPassiveIds).RId =
        wPassiveIds) :=
  ⟨⟨by decide, by decide⟩,
    mmStore_passive_records_nothing wPassiveVals wPassiveIds wPassiveVals wPassiveIds
      wPassiveIds (by decide) (by decide)⟩

/-- C10: in the primal computation with at least one active input, the
output identifier marker at position (i, j) of R is nonzero exactly when A
is active and row i of A contains a nonzero input identifier, or B is active
and column j of B contains a nonzero input identifier; every other output
position receives the reserved zero identifier marker. -/
theorem callPrimal_id_marking {n k m : ℕ} (active_A active_B : Bool)
    (AId : Fin n → Fin k → ℕ) (BId : Fin k → Fin m → ℕ)
    (RIdInit : Fin n → Fin m → ℕ)
    (h : (active_A || active_B) = true) :
    ∀ i j,
      callPrimalRId (active_A || active_B) active_A active_B AId BId RIdInit i j ≠ 0 ↔
        ((active_A = true ∧ ∃ l, AId i l ≠ 0) ∨ (active_B = true ∧ ∃ l, BId l j ≠ 0)) := by
  intro i j
  unfold callPrimalRId
  rw [h]
  simp only [if_true]
  split_ifs with hA hB hB <;> simp_all

/-- Concrete input for the C10 witness: identifiers of an active 2 x 2
argument A with one marked row. -/
def wMarkAId : Fin 2 → Fin 2 → ℕ :=
  fun i _ => if i = 0 then 3 else 0

/-- Concrete input for the C10 witness: identifiers of a passive 2 x 2
argument B. -/
def wMarkBId : Fin 2 → Fin 2 → ℕ :=
  fun _ _ => 0

/-- Witness for C10 on concrete 2 x 2 identifier matrices with A active. -/
theorem callPrimal_id_marking_witness :
    ((true || false) = true) ∧
    (∀ i j,
      callPrimalRId (true || false) true false wMarkAId wMarkBId wMarkBId i j ≠ 0 ↔
        ((true = true ∧ ∃ l, wMarkAId i l ≠ 0) ∨ (false = true ∧ ∃ l, wMarkBId l j ≠ 0))) :=
  ⟨by decide, callPrimal_id_marking true false wMarkAId wMarkBId wMarkBId (by decide)⟩

/-! ## Matrix-matrix multiplication: reverse replay -/

/-- Embeds ExtFunc_matrixMatrixMultiplication::callReverse: if A is active,
accumulate R_adjoint times B transposed into A's adjoint buffer; if B is
active, accumulate A transposed times R_adjoint into B's adjoint buffer. -/
def callReverse {n k m : ℕ} (A : Fin n → Fin k → ℤ) (active_A : Bool)
    (A_b_in : Fin n → Fin k → ℤ) (B : Fin k → Fin m → ℤ) (active_B : Bool)
    (B_b_in : Fin k → Fin m → ℤ) (R_b_out : Fin n → Fin m → ℤ) :
    (Fin n → Fin k → ℤ) × (Fin k → Fin m → ℤ) :=
  ((if active_A then fun i j => A_b_in i j + ∑ l, R_b_out i l * B j l else A_b_in),
   (if active_B then fun i j => B_b_in i j + ∑ l, A l i * R_b_out l j else B_b_in))

/-- Accumulates one gradient contribution into the adjoint vector slot of
the given identifier. -/
def accumAt (adj : ℕ → ℤ) (identifier : ℕ) (v : ℤ) : ℕ → ℤ :=
  fun x => if x = identifier then adj x + v else adj x

/-- Accumulates a list of (identifier, value) contributions into the
adjoint vector, in order. -/
def accumList (adj : ℕ → ℤ) (kvs : List (ℕ × ℤ)) : ℕ → ℤ :=
  kvs.foldl (fun a kv => accumAt a kv.1 kv.2) adj

/-- All index pairs of a p times q matrix. -/
def finPairs (p q : ℕ) : List (Fin p × Fin q) :=
  List.product (List.finRange p) (List.finRange q)

/-- Modelled from the spec: ActiveArgumentStoreTraits::getGradients (the
trait header is not part of the sources given); the spec states reverse
replay reads output adjoints by identifier from the adjoint vector. -/
def getGradients {p q : ℕ} (adj : ℕ → ℤ) (ids : Fin p → Fin q → ℕ) :
    Fin p → Fin q → ℤ :=
  fun i j => adj (ids i j)

/-- Modelled from the spec: ActiveArgumentStoreTraits::setGradients in
accumulation mode (the trait header is not part of the sources given); the
spec states reverse replay accumulates results into input adjoints by
identifier. -/
def setGradientsAccum {p q : ℕ} (adj : ℕ → ℤ) (ids : Fin p → Fin q → ℕ)
    (g : Fin p → Fin q → ℤ) : ℕ → ℤ :=
  accumList adj ((finPairs p q).map fun pr => (ids pr.1 pr.2, g pr.1 pr.2))

/-- Embeds the adjoint handling of
ExtFunc_matrixMatrixMultiplication::reverse: read the output adjoints of R
by identifier, run callReverse on freshly zero initialized input gradient
buffers, and accumulate the resulting input gradients back into the adjoint
vector, guarded by the activity of each argument. -/
def mmReverseReplay {n k m : ℕ} (active_A active_B : Bool)
    (A : Fin n → Fin k → ℤ) (AId : Fin n → Fin k → ℕ)
    (B : Fin k → Fin m → ℤ) (BId : Fin k → Fin m → ℕ)
    (RId : Fin n → Fin m → ℕ) (adj : ℕ → ℤ) : ℕ → ℤ :=
  let R_b := getGradients adj RId
  let res := callReverse A active_A (fun _ _ => 0) B active_B (fun _ _ => 0) R_b
  let adj1 := if active_A then setGradientsAccum adj AId res.1 else adj
  if active_B then setGradientsAccum adj1 BId res.2 else adj1

/-- Accumulation leaves every slot whose identifier does not occur in the
contribution list unchanged. -/
theorem accumList_not_mem (adj : ℕ → ℤ) (kvs : List (ℕ × ℤ)) (x : ℕ)
    (h : ∀ kv ∈ kvs, kv.1 ≠ x) : accumList adj kvs x = adj x := by
  induction kvs generalizing adj with
  | nil => rfl
  | cons kv rest ih =>
      have hx : accumAt adj kv.1 kv.2 x = adj x := by
        unfold accumAt
        rw [if_neg]
        intro he
        exact h kv (List.mem_cons_self kv rest) he.symm
      calc accumList adj (kv :: rest) x
          = accumList (accumAt adj kv.1 kv.2) rest x := rfl
        _ = accumAt adj kv.1 kv.2 x := ih (accumAt adj kv.1 kv.2)
              (fun p hp => h p (List.mem_cons_of_mem kv hp))
        _ = adj x := hx

/-- Accumulation of a list whose identifiers are pairwise distinct adds to
each mentioned slot exactly its own contribution. -/
theorem accumList_nodup_mem (adj : ℕ → ℤ) (kvs : List (ℕ × ℤ)) (key : ℕ) (v : ℤ)
    (hnd : (kvs.map Prod.fst).Nodup) (hmem : (key, v) ∈ kvs) :
    accumList adj kvs key = adj key + v := by
  induction kvs generalizing adj with
  | nil => cases hmem
  | cons kv rest ih =>
      rw [List.map_cons, List.nodup_cons] at hnd
      by_cases hk : key = kv.1
      · have hv : v = kv.2 := by
          rcases List.mem_cons.mp hmem with hhead | htail
          · rw [Prod.ext_iff] at hhead
            exact hhead.2
          · exfalso
            apply hnd.1
            rw [← hk]
            exact List.mem_map_of_mem Prod.fst htail
        have hrest : ∀ kv2 ∈ rest, kv2.1 ≠ key := by
          intro kv2 h2 he
          apply hnd.1
          rw [hk] at he
          rw [← he]
          exact List.mem_map_of_mem Prod.fst h2
        calc accumList adj (kv :: rest) key
            = accumList (accumAt adj kv.1 kv.2) rest key := rfl
          _ = accumAt adj kv.1 kv.2 key := accumList_not_mem _ rest key hrest
          _ = adj key + v := by
              unfold accumAt
              rw [if_pos hk, hv]
      · have htail : (key, v) ∈ rest := by
          rcases List.mem_cons.mp hmem with hhead | htail
          · exfalso
            apply hk
            rw [Prod.ext_iff] at hhead
            exact hhead.1
          · exact htail
        calc accumList adj (kv :: rest) key
            = accumList (accumAt adj kv.1 kv.2) rest key := rfl
          _ = accumAt adj kv.1 kv.2 key + v := ih (accumAt adj kv.1 kv.2) hnd.2 htail
          _ = adj key + v := by
              unfold accumAt
              rw [if_neg hk]

/-- Every index pair of the matrix occurs in finPairs. -/
theorem finPairs_mem {p q : ℕ} (i : Fin p) (j : Fin q) : (i, j) ∈ finPairs p q := by
  have h : (i, j) ∈ (List.finRange p) ×ˢ (List.finRange q) :=
    List.mem_product.mpr ⟨List.mem_finRange i, List.mem_finRange j⟩
  exact h

/-- finPairs holds no duplicate index pair. -/
theorem finPairs_nodup (p q : ℕ) : (finPairs p q).Nodup :=
  List.Nodup.product (List.nodup_finRange p) (List.nodup_finRange q)

/-- Accumulating a gradient matrix through an injective identifier matrix
adds exactly the matching gradient entry to each identifier slot. -/
theorem setGradientsAccum_apply {p q : ℕ} (adj : ℕ → ℤ) (ids : Fin p → Fin q → ℕ)
    (g : Fin p → Fin q → ℤ)
    (hinj : ∀ i j i2 j2, ids i j = ids i2 j2 → i = i2 ∧ j = j2) (i : Fin p) (j : Fin q) :
    setGradientsAccum adj ids g (ids i j) = adj (ids i j) + g i j := by
  apply accumList_nodup_mem
  · rw [List.map_map]
    apply List.Nodup.map_on _ (finPairs_nodup p q)
    intro x hx y hy hxy
    simp only [Function.comp_apply] at hxy
    have := hinj x.1 x.2 y.1 y.2 hxy
    exact Prod.ext this.1 this.2
  · exact List.mem_map_of_mem _ (finPairs_mem i j)

/-- Accumulating through an identifier matrix leaves every slot that no
identifier entry names unchanged. -/
theorem setGradientsAccum_other {p q : ℕ} (adj : ℕ → ℤ) (ids : Fin p → Fin q → ℕ)
    (g : Fin p → Fin q → ℤ) (x : ℕ) (hx : ∀ i j, ids i j ≠ x) :
    setGradientsAccum adj ids g x = adj x := by
  apply accumList_not_mem
  intro kv hkv
  rcases List.mem_map.mp hkv with ⟨pr, _, hpr⟩
  rw [← hpr]
  exact hx pr.1 pr.2

/-- C3: when argument A is active and argument B is passive, reverse replay
of the matrix-matrix-multiplication record accumulates R_adjoint times B
transposed into the adjoint slot of each entry of A, leaves every adjoint
slot that no identifier of A names (in particular every adjoint slot of B)
unchanged, and callReverse leaves B's gradient buffer untouched. -/
theorem mmReverse_A_active_B_passive {n k m : ℕ}
    (A : Fin n → Fin k → ℤ) (AId : Fin n → Fin k → ℕ)
    (B : Fin k → Fin m → ℤ) (BId : Fin k → Fin m → ℕ)
    (RId : Fin n → Fin m → ℕ) (adj : ℕ → ℤ)
    (hinj : ∀ i j i2 j2, AId i j = AId i2 j2 → i = i2 ∧ j = j2) :
    (∀ i j, mmReverseReplay true false A AId B BId RId adj (AId i j) =
        adj (AId i j) + ∑ l, adj (RId i l) * B j l) ∧
    (∀ x, (∀ i j, AId i j ≠ x) →
        mmReverseReplay true false A AId B BId RId adj x = adj x) ∧
    (∀ (A_b_in : Fin n → Fin k → ℤ) (B_b_in : Fin k → Fin m → ℤ)
        (R_b : Fin n → Fin m → ℤ),
        (callReverse A true A_b_in B false B_b_in R_b).2 = B_b_in) := by
  have hrepl : mmReverseReplay true false A AId B BId RId adj =
      setGradientsAccum adj AId
        (fun i j => (0 : ℤ) + ∑ l, getGradients adj RId i l * B j l) := by
    unfold mmReverseReplay callReverse
    simp
  refine ⟨?_, ?_, ?_⟩
  · intro i j
    rw [hrepl, setGradientsAccum_apply adj AId _ hinj i j]
    simp [getGradients]
  · intro x hx
    rw [hrepl]
    exact setGradientsAccum_other adj AId _ x hx
  · intro A_b_in B_b_in R_b
    unfold callReverse
    simp

/-- Concrete input for the C3 witness: the 2 x 2 value matrix of A. -/
def wRevA : Fin 2 → Fin 2 → ℤ :=
  fun i j => (i.val : ℤ) * 2 + j.val + 1

/-- Concrete input for the C3 witness: the identifiers of the active
argument A, pairwise distinct. -/
def wRevAId : Fin 2 → Fin 2 → ℕ :=
  fun i j => 1 + 2 * i.val + j.val

/-- Concrete input for the C3 witness: the 2 x 2 value matrix of B. -/
def wRevB : Fin 2 → Fin 2 → ℤ :=
  fun i j => (i.val : ℤ) * 10 + j.val + 1

/-- Concrete input for the C3 witness: the identifiers of the passive
argument B, all reserved. -/
def wRevBId : Fin 2 → Fin 2 → ℕ :=
  fun _ _ => 0

/-- Concrete input for the C3 witness: the identifiers of the output R. -/
def wRevRId : Fin 2 → Fin 2 → ℕ :=
  fun i j => 5 + 2 * i.val + j.val

/-- Concrete input for the C3 witness: the seed adjoint vector. -/
def wRevAdj : ℕ → ℤ :=
  fun x => (x : ℤ)

/-- Witness for C3 on a concrete 2 x 2 record with A active and B passive. -/
theorem mmReverse_A_active_B_passive_witness :
    (∀ i j i2 j2, wRevAId i j = wRevAId i2 j2 → i = i2 ∧ j = j2) ∧
    ((∀ i j, mmReverseReplay true false wRevA wRevAId wRevB wRevBId wRevRId wRevAdj
        (wRevAId i j) = wRevAdj (wRevAId i j) + ∑ l, wRevAdj (wRevRId i l) * wRevB j l) ∧
     (∀ x, (∀ i j, wRevAId i j ≠ x) →
        mmReverseReplay true false wRevA wRevAId wRevB wRevBId wRevRId wRevAdj x =
          wRevAdj x) ∧
     (∀ (A_b_in : Fin 2 → Fin 2 → ℤ) (B_b_in : Fin 2 → Fin 2 → ℤ)
        (R_b : Fin 2 → Fin 2 → ℤ),
        (callReverse wRevA true A_b_in wRevB false B_b_in R_b).2 = B_b_in)) :=
  ⟨by decide,
    mmReverse_A_active_B_passive wRevA wRevAId wRevB wRevBId wRevRId wRevAdj (by decide)⟩

end CodiPack
